import Mathlib

/-
Verification of the cstug-to-dmlcz repository (two Python converters,
src/cstug_to_dmlcz/cstug_to_dmlcz.py and src/crossref_to_dmlcz/crossref_to_dmlcz.py)
against its natural-language specification.

The embedding translates the relevant Python functions into pure Lean
functions.  Fallible Python code (exceptions) is modelled with
Except PyErr; Python exception classes are modelled by the PyErr
enumeration.  File-system side effects are modelled as explicit event
traces.  External collaborators (pycountry, PyPDF2, the DOI lookup
service) are modelled through the narrow interfaces the spec describes.
-/

/-- Python exception kinds that the translated code can raise. -/
inductive PyErr where
  | assertionError
  | attributeError
  | keyError
  | typeError
  | valueError
  | indexError
deriving DecidableEq

/-- Translation of invert_language (cstug_to_dmlcz.py lines 391-397):
asserts the code is in the closed set, maps cze and slo to eng, and on
eng returns the literal placeholder string from the source. -/
def invert_language (code : String) : Except PyErr String :=
  if code = "cze" ∨ code = "slo" ∨ code = "eng" then
    if code = "cze" ∨ code = "slo" then
      Except.ok "eng"
    else
      Except.ok "TODO: cze nebo slo, který z nich to je?"
  else
    Except.error PyErr.assertionError

/-- Model of the external pycountry alpha-2 lookup (a collaborator per
the spec): a finite table from two-letter codes to the bibliographic
(or alpha-3) three-letter code; none models an unknown code. -/
def pycountryLookup (code : String) : Option String :=
  if code = "cs" then some "cze"
  else if code = "sk" then some "slo"
  else if code = "en" then some "eng"
  else if code = "de" then some "ger"
  else if code = "fr" then some "fre"
  else none

/-- Translation of normalize_language (cstug_to_dmlcz.py lines 381-388):
unknown codes raise AttributeError (attribute access on None), and the
assert restricts the result to the closed set cze, slo, eng. -/
def normalize_language (code : String) : Except PyErr String :=
  match pycountryLookup code with
  | none => Except.error PyErr.attributeError
  | some b =>
    if b = "cze" ∨ b = "slo" ∨ b = "eng" then Except.ok b
    else Except.error PyErr.assertionError

/-- Model of PdfFileReader.getPage, the PDF collaborator of the spec:
page extraction by 0-based index, failing out of bounds.  The source
PDF is a list of pages. -/
def getPage {α : Type} (pdf : List α) (i : Int) : Except PyErr α :=
  if h : 0 ≤ i ∧ i.toNat < pdf.length then
    Except.ok (pdf.get ⟨i.toNat, h.2⟩)
  else
    Except.error PyErr.indexError

/-- The list of Int values produced by Python range(a, b + 1). -/
def intRange (a b : Int) : List Int :=
  (List.range (b + 1 - a).toNat).map (fun (k : Nat) => a + (k : Int))

/-- The page-fetch loop of JournalArticle.write_pdf (cstug lines
164-168, crossref lines 115-119): for each logical page number, fetch
the page at index page_number + page_offset - first_page_number. -/
def sliceGo {α : Type} (pdf : List α) (off fpn : Int) :
    List Int → Except PyErr (List α)
  | [] => Except.ok []
  | n :: ns =>
    match getPage pdf (n + off - fpn) with
    | Except.error e => Except.error e
    | Except.ok p =>
      match sliceGo pdf off fpn ns with
      | Except.error e => Except.error e
      | Except.ok rest => Except.ok (p :: rest)

/-- Translation of JournalArticle.write_pdf page assembly (cstug lines
160-168, crossref lines 111-119): iterate the logical range
first..last and collect the fetched pages in order. -/
def writePdfPages {α : Type} (pages : Int × Int) (pdf : List α)
    (off fpn : Int) : Except PyErr (List α) :=
  sliceGo pdf off fpn (intRange pages.1 pages.2)

/-- JSON values as returned by json.loads on the DOI lookup response. -/
inductive PyJson where
  | str (v : String)
  | int (v : Int)
  | bool (v : Bool)
  | null
  | arr (xs : List PyJson)
  | obj (kvs : List (String × PyJson))

/-- A fragment of the input_address iterable of find_optional_in_json:
the source mixes string keys and integer indices. -/
inductive Frag where
  | key (k : String)
  | idx (n : Nat)
deriving DecidableEq

/-- Key lookup in a JSON object (Python dict with string keys). -/
def lookupKV : List (String × PyJson) → String → Option PyJson
  | [], _ => none
  | (k0, v0) :: rest, k => if k0 = k then some v0 else lookupKV rest k

/-- Python truthiness of a JSON value. -/
def truthy : PyJson → Bool
  | PyJson.str v => v ≠ ""
  | PyJson.int v => v ≠ 0
  | PyJson.bool v => v
  | PyJson.null => false
  | PyJson.arr xs => ¬ xs.isEmpty
  | PyJson.obj kvs => ¬ kvs.isEmpty

/-- Python equality test between a str and an arbitrary JSON value
(used by the membership check on lists): str compares equal only to an
equal str. -/
def jsonEqStr (s : String) : PyJson → Bool
  | PyJson.str t => s = t
  | _ => false

/-- Whether the character list n occurs at the start of h. -/
def listStartsWith : List Char → List Char → Bool
  | _, [] => true
  | [], _ :: _ => false
  | a :: as, b :: bs => a = b && listStartsWith as bs

/-- Whether the character list n occurs inside h (Python substring test). -/
def listHasSub (h n : List Char) : Bool :=
  match h with
  | [] => listStartsWith [] n
  | _ :: rest => listStartsWith h n || listHasSub rest n

/-- Python membership test key in element: dict checks keys, list
checks elements, str checks substrings, other values raise TypeError. -/
def pyContains (k : String) : PyJson → Except PyErr Bool
  | PyJson.obj kvs => Except.ok (kvs.any (fun kv => kv.1 = k))
  | PyJson.arr xs => Except.ok (xs.any (jsonEqStr k))
  | PyJson.str t => Except.ok (listHasSub t.data k.data)
  | _ => Except.error PyErr.typeError

/-- Python subscript element k with a string key: dict lookup
(KeyError when absent); lists, strings and scalars raise TypeError. -/
def pySubscript (j : PyJson) (k : String) : Except PyErr PyJson :=
  match j with
  | PyJson.obj kvs =>
    match lookupKV kvs k with
    | some v => Except.ok v
    | none => Except.error PyErr.keyError
  | _ => Except.error PyErr.typeError

/-- Python subscript element n with an integer index: list indexing
(IndexError when out of range), string indexing yields a one-character
string, dicts raise KeyError (an int is never a JSON object key), and
scalars raise TypeError. -/
def pySubscriptIdx (j : PyJson) (n : Nat) : Except PyErr PyJson :=
  match j with
  | PyJson.arr xs =>
    match xs.get? n with
    | some v => Except.ok v
    | none => Except.error PyErr.indexError
  | PyJson.str t =>
    match t.data.get? n with
    | some c => Except.ok (PyJson.str (String.mk [c]))
    | none => Except.error PyErr.indexError
  | PyJson.obj _ => Except.error PyErr.keyError
  | _ => Except.error PyErr.typeError

/-- Python str() of a non-container JSON value; containers never reach
this point in find_optional_in_json because of its isinstance guard. -/
def pyStr : PyJson → String
  | PyJson.str t => t
  | PyJson.int v => toString v
  | PyJson.bool true => "True"
  | PyJson.bool false => "False"
  | PyJson.null => "None"
  | PyJson.arr _ => ""
  | PyJson.obj _ => ""

/-- The loop of find_optional_in_json (cstug lines 272-281): walk the
address, breaking out (and keeping the current element) when the
element is not a container, when a key is missing from a dict, when an
int index is out of a list's range, or when an int fragment meets a
dict; a string fragment meeting a list raises TypeError, because the
source compares the string against the list's length with >=. -/
def jwalk : PyJson → List Frag → Except PyErr PyJson
  | e, [] => Except.ok e
  | PyJson.obj kvs, Frag.key k :: fs =>
    match lookupKV kvs k with
    | some v => jwalk v fs
    | none => Except.ok (PyJson.obj kvs)
  | PyJson.obj kvs, Frag.idx _ :: _ => Except.ok (PyJson.obj kvs)
  | PyJson.arr xs, Frag.idx n :: fs =>
    match xs.get? n with
    | some v => jwalk v fs
    | none => Except.ok (PyJson.arr xs)
  | PyJson.arr _, Frag.key _ :: _ => Except.error PyErr.typeError
  | e, _ :: _ => Except.ok e

/-- Translation of find_optional_in_json (cstug lines 272-284): walk
the address, then silently omit the field (none) if the final element
is still a dict or a list, otherwise emit str(element). -/
def find_optional_in_json (resolved : PyJson) (addr : List Frag) :
    Except PyErr (Option String) :=
  match jwalk resolved addr with
  | Except.error e => Except.error e
  | Except.ok (PyJson.obj _) => Except.ok none
  | Except.ok (PyJson.arr _) => Except.ok none
  | Except.ok e => Except.ok (some (pyStr e))

/-- Python dict assignment d[k] = v on an association list. -/
def insertKV : List (String × String) → String → String → List (String × String)
  | [], k, v => [(k, v)]
  | (k0, v0) :: rest, k, v =>
    if k0 = k then (k, v) :: rest else (k0, v0) :: insertKV rest k v

/-- The six find_optional_in_json calls of the DOI branch (cstug lines
286-291): address paired with the output element name. -/
def optionalAddrs : List (List Frag × String) :=
  [([Frag.key "publisher"], "publisher"),
   ([Frag.key "published-print", Frag.key "date-parts", Frag.idx 0, Frag.idx 0], "year"),
   ([Frag.key "issue"], "number"),
   ([Frag.key "volume"], "volume"),
   ([Frag.key "page"], "pages"),
   ([Frag.key "ISSN", Frag.idx 0], "ISSN")]

/-- One step of the optionals accumulation: insert the field unless
the walk omitted it. -/
def optStep (resolved : PyJson) (acc : List (String × String))
    (p : List Frag × String) : Except PyErr (List (String × String)) :=
  match find_optional_in_json resolved p.1 with
  | Except.error e => Except.error e
  | Except.ok none => Except.ok acc
  | Except.ok (some s) => Except.ok (insertKV acc p.2 s)

/-- Sequential accumulation of the optional fields over a list of
addresses, starting from the already-populated optionals dict. -/
def optFold (resolved : PyJson) (acc : List (String × String)) :
    List (List Frag × String) → Except PyErr (List (String × String))
  | [] => Except.ok acc
  | p :: ps =>
    match optStep resolved acc p with
    | Except.error e => Except.error e
    | Except.ok acc2 => optFold resolved acc2 ps

/-- A reference record of the bulletin dialect, the tuple
(refid, prefix, title, author_names, suffix, optionals) built at cstug
line 322.  The title may be any JSON value once overwritten from the
resolved metadata, and so may the author name parts. -/
structure RefRecord where
  rid : Nat
  pre : String
  title : PyJson
  authorNames : List (PyJson × PyJson)
  suffix : String
  optionals : List (String × String)

/-- The tolerant title lookup of the DOI branch (cstug lines 264-265):
title is overwritten from the resolved metadata only when the title
key is present. -/
def doiTitleStep (resolved : PyJson) : Except PyErr PyJson :=
  match pyContains "title" resolved with
  | Except.error e => Except.error e
  | Except.ok hasTitle =>
    if hasTitle then pySubscript resolved "title"
    else Except.ok (PyJson.str "TODO: Doplnit!")

/-- The first-author access of the DOI branch (cstug lines 267-270):
when author is present and truthy, the given and family values of its
first entry are read directly (raising when absent). -/
def doiAuthorStep (resolved : PyJson) : Except PyErr (List (PyJson × PyJson)) :=
  match pyContains "author" resolved with
  | Except.error e => Except.error e
  | Except.ok hasAuthor =>
    if hasAuthor then
      match pySubscript resolved "author" with
      | Except.error e => Except.error e
      | Except.ok av =>
        if truthy av then
          match pySubscriptIdx av 0 with
          | Except.error e => Except.error e
          | Except.ok a0 =>
            match pySubscript a0 "given" with
            | Except.error e => Except.error e
            | Except.ok g =>
              match pySubscript a0 "family" with
              | Except.error e => Except.error e
              | Except.ok f => Except.ok [(g, f)]
        else Except.ok []
    else Except.ok []

/-- Translation of the DOI-bearing branch of
JournalArticle._load_references (cstug lines 255-291): placeholder
title and suffix, the URL optional, then the tolerant title lookup,
the direct (non-tolerant) first-author access, and the six
optional-field walks, assembled into the reference tuple. -/
def processDoiCitation (refid : Nat) (doi : String) (resolved : PyJson) :
    Except PyErr RefRecord :=
  match doiTitleStep resolved with
  | Except.error e => Except.error e
  | Except.ok title =>
    match doiAuthorStep resolved with
    | Except.error e => Except.error e
    | Except.ok authorNames =>
      match optFold resolved [("URL", "https://dx.doi.org/" ++ doi)] optionalAddrs with
      | Except.error e => Except.error e
      | Except.ok optionals =>
        Except.ok
          { rid := refid
            pre := "[" ++ toString refid ++ "]"
            title := title
            authorNames := authorNames
            suffix := ". TODO: Doplnit!"
            optionals := optionals }

/-- Translation of resolve_doi (cstug lines 448-455) over the HTTP
collaborator's response: on status 200 the parsed JSON body, otherwise
an empty dict. -/
def resolve_doi (status : Nat) (body : PyJson) : PyJson :=
  if status = 200 then body else PyJson.obj []

/-- A file-system effect of the converters: creating a directory
(exist_ok, idempotent) or writing a file inside a directory. -/
inductive FsEvent where
  | mkdirE (dir : String)
  | writeE (dir : String) (file : String)
deriving DecidableEq

/-- The extracted state of a bulletin JournalArticle after __init__,
consumed by write_xml and write_pdf. -/
structure ArticleData where
  titles : List (String × String)
  authors : List (Nat × String × String)
  language : String
  keywords : List (String × String)
  summaries : List (String × String)
  mainSummaryLanguage : Option String
  doi : Option String
  category : String
  pages : Int × Int
  references : List RefRecord

/-- The per-article directory label assigned by JournalIssue.write_xml
(cstug lines 68-71). -/
def dirLabel (n : Nat) : String :=
  "#" ++ toString n

/-- Translation of JournalArticle.write_xml (cstug lines 96-99) as a
file-system trace: _write_meta_xml always (mkdir then meta.xml, lines
138-139), then _write_references_xml (mkdir then references.xml, lines
157-158) only when the reference list is non-empty. -/
def articleWriteXml (a : ArticleData) (dir : String) : List FsEvent :=
  [FsEvent.mkdirE dir, FsEvent.writeE dir "meta.xml"] ++
    (if a.references.isEmpty then []
     else [FsEvent.mkdirE dir, FsEvent.writeE dir "references.xml"])

/-- Translation of JournalArticle.write_pdf (cstug lines 160-171) as a
trace: all pages are fetched first; only if every fetch succeeds are
the mkdir and the source.pdf write performed. -/
def articleWritePdf {α : Type} (a : ArticleData) (pdf : List α)
    (off fpn : Int) (dir : String) : Except PyErr (List FsEvent) :=
  match writePdfPages a.pages pdf off fpn with
  | Except.error e => Except.error e
  | Except.ok _ => Except.ok [FsEvent.mkdirE dir, FsEvent.writeE dir "source.pdf"]

/-- The loop of JournalIssue.write_xml (cstug lines 68-73), numbering
articles from n: for each article, write its XML then its PDF slice.
On a failure the trace written so far is reported with the error. -/
def issueGo {α : Type} (pdf : List α) (off fpn : Int) :
    Nat → List ArticleData → Except (List FsEvent × PyErr) (List FsEvent)
  | _, [] => Except.ok []
  | n, a :: rest =>
    let xmlEvs := articleWriteXml a (dirLabel n)
    match articleWritePdf a pdf off fpn (dirLabel n) with
    | Except.error e => Except.error (xmlEvs, e)
    | Except.ok pdfEvs =>
      match issueGo pdf off fpn (n + 1) rest with
      | Except.error (evs, e) => Except.error (xmlEvs ++ pdfEvs ++ evs, e)
      | Except.ok evs => Except.ok (xmlEvs ++ pdfEvs ++ evs)

/-- The JournalIssue.first_page_number property (cstug lines 59-61):
the first article's first logical page.  It is only read inside the
loop, so the empty case is arbitrary (the constructor asserts the
article list non-empty). -/
def fpnOf (articles : List ArticleData) : Int :=
  match articles with
  | [] => 0
  | a :: _ => a.pages.1

/-- Translation of JournalIssue.write_xml (cstug lines 63-73) as a
trace: mkdir of the output directory, then the per-article loop with
1-based directory labels. -/
def issueWriteXml {α : Type} (articles : List ArticleData) (pdf : List α)
    (off : Int) (outDir : String) :
    Except (List FsEvent × PyErr) (List FsEvent) :=
  match issueGo pdf off (fpnOf articles) 1 articles with
  | Except.error (evs, e) => Except.error (FsEvent.mkdirE outDir :: evs, e)
  | Except.ok evs => Except.ok (FsEvent.mkdirE outDir :: evs)

/-- The full trace an article's processing writes when it succeeds. -/
def goodEvents : Nat → List ArticleData → List FsEvent
  | _, [] => []
  | n, a :: rest =>
    articleWriteXml a (dirLabel n) ++
      [FsEvent.mkdirE (dirLabel n), FsEvent.writeE (dirLabel n) "source.pdf"] ++
      goodEvents (n + 1) rest

/-- A reference record of the CrossRef dialect, the tuple
(refid, prefix, title, author, suffix) built at crossref line 189. -/
structure CRefRecord where
  rid : Nat
  pre : String
  title : Option String
  author : Option String
  suffix : String

/-- The extracted state of a CrossRef JournalArticle after __init__. -/
structure CArticleData where
  titles : List (String × String)
  authors : List (Nat × String × String)
  language : String
  doi : Option String
  category : String
  pages : Int × Int
  references : List CRefRecord

/-- The attribute names defined in the body of the CrossRef
JournalArticle class, after Python name mangling: the method written
as __write_references_xml (crossref line 96) is stored under
_JournalArticle__write_references_xml. -/
def crossrefClassAttrs : List String :=
  ["write_xml", "_write_meta_xml", "_JournalArticle__write_references_xml",
   "write_pdf", "_load_titles", "_load_authors", "_load_pages", "_load_doi",
   "_load_category", "_load_references"]

/-- Translation of the CrossRef JournalArticle.write_xml (crossref
lines 62-65) as a trace: _write_meta_xml always (mkdir then meta.xml,
lines 93-94); when the reference list is non-empty the call
self._write_references_xml is an attribute lookup, which raises
AttributeError because only the name-mangled
_JournalArticle__write_references_xml exists in the class. -/
def crossrefWriteXml (a : CArticleData) (dir : String) :
    Except (List FsEvent × PyErr) (List FsEvent) :=
  let metaEvs := [FsEvent.mkdirE dir, FsEvent.writeE dir "meta.xml"]
  if a.references.isEmpty then Except.ok metaEvs
  else if crossrefClassAttrs.contains "_write_references_xml" then
    Except.ok (metaEvs ++ [FsEvent.mkdirE dir, FsEvent.writeE dir "references.xml"])
  else Except.error (metaEvs, PyErr.attributeError)

/-- A person_name contributor element: its sequence and
contributor_role attributes (none when absent) and the lists of
given_name and surname child-element texts that the xpath calls
return. -/
structure PersonName where
  seqAttr : Option String
  roleAttr : Option String
  givenName : List String
  surname : List String

/-- The contributor sequence of the bulletin get_author_names (cstug
lines 414-423): person_name elements with sequence first and role
author, then those with sequence additional and role author. -/
def cstugAuthorsOf (ps : List PersonName) : List PersonName :=
  ps.filter (fun p => p.seqAttr = some "first" ∧ p.roleAttr = some "author") ++
    ps.filter (fun p => p.seqAttr = some "additional" ∧ p.roleAttr = some "author")

/-- The loop body of cstug get_author_names interleaved with the
enumerate loop of _load_authors (cstug lines 218-224 and 424-434):
optional given name (ValueError if several), mandatory surname
(ValueError if zero or several), then the assert first_name, then the
1-based order. -/
def cstugLoadGo : Nat → List PersonName → Except PyErr (List (Nat × String × String))
  | _, [] => Except.ok []
  | k, p :: rest =>
    let fnStep : Except PyErr (Option String) :=
      match p.givenName with
      | [] => Except.ok none
      | [g] => Except.ok (some g)
      | _ => Except.error PyErr.valueError
    match fnStep with
    | Except.error e => Except.error e
    | Except.ok fn =>
      match p.surname with
      | [ln] =>
        match fn with
        | none => Except.error PyErr.assertionError
        | some g =>
          if g = "" then Except.error PyErr.assertionError
          else
            match cstugLoadGo (k + 1) rest with
            | Except.error e => Except.error e
            | Except.ok rest2 => Except.ok ((k, ln, g) :: rest2)
      | _ => Except.error PyErr.valueError

/-- Translation of the bulletin _load_authors (cstug lines 218-224). -/
def cstugLoadAuthors (ps : List PersonName) :
    Except PyErr (List (Nat × String × String)) :=
  cstugLoadGo 1 (cstugAuthorsOf ps)

/-- The contributor sequence of the CrossRef _load_authors (crossref
lines 139-140): person_name elements with sequence first, then those
with sequence additional — with no contributor_role filter. -/
def crossrefSeqOf (ps : List PersonName) : List PersonName :=
  ps.filter (fun p => p.seqAttr = some "first") ++
    ps.filter (fun p => p.seqAttr = some "additional")

/-- The loop body of the CrossRef _load_authors (crossref lines
141-148): exactly one given_name and exactly one surname are required
(ValueError otherwise), then the 1-based order. -/
def crossrefLoadGo : Nat → List PersonName → Except PyErr (List (Nat × String × String))
  | _, [] => Except.ok []
  | k, p :: rest =>
    match p.givenName with
    | [g] =>
      match p.surname with
      | [ln] =>
        match crossrefLoadGo (k + 1) rest with
        | Except.error e => Except.error e
        | Except.ok rest2 => Except.ok ((k, ln, g) :: rest2)
      | _ => Except.error PyErr.valueError
    | _ => Except.error PyErr.valueError

/-- Translation of the CrossRef _load_authors (crossref lines 137-148). -/
def crossrefLoadAuthors (ps : List PersonName) :
    Except PyErr (List (Nat × String × String)) :=
  crossrefLoadGo 1 (crossrefSeqOf ps)

/-- A child element of an additional-content element: its tag, the
texts of its keywords child elements, and the texts of its para child
elements. -/
structure AcElem where
  tag : String
  kwTexts : List String
  paras : List String

/-- State machine for re.split applied with the pattern comma followed
by any number of spaces: afterComma records whether we are consuming
the spaces that belong to a just-matched separator. -/
def splitGo : Bool → List Char → List Char → List (List Char)
  | _, acc, [] => [acc.reverse]
  | true, acc, c :: rest =>
    if c = ' ' then splitGo true acc rest
    else if c = ',' then acc.reverse :: splitGo true [] rest
    else splitGo false (c :: acc) rest
  | false, acc, c :: rest =>
    if c = ',' then acc.reverse :: splitGo true [] rest
    else splitGo false (c :: acc) rest

/-- Translation of re.split applied to a comma-plus-spaces pattern
(cstug line 337). -/
def resplit (s : String) : List String :=
  (splitGo false [] s.data).map String.mk

/-- The body of the _load_keywords loop for one abstract at child
position i (cstug lines 331-348): skip an abstract without a keywords
element, unpack the single keywords element (ValueError if several),
split its text on commas, skip when the split is empty (dead code),
then pick the language by the getprevious test (own language only at
child position 0) and append one keyword per split fragment before the
keywords collected from the remaining children (recRes). -/
def keywordAbstractStep (lang : String) (i : Nat) :
    List String → Except PyErr (List (String × String)) →
      Except PyErr (List (String × String))
  | [], recRes => recRes
  | [kw], recRes =>
    if (resplit kw).isEmpty then recRes
    else
      match (if i = 0 then Except.ok lang else invert_language lang) with
      | Except.error err => Except.error err
      | Except.ok kwLang =>
        match recRes with
        | Except.error err => Except.error err
        | Except.ok rest2 =>
          Except.ok ((resplit kw).map (fun t => (kwLang, t)) ++ rest2)
  | _, _ => Except.error PyErr.valueError

/-- Translation of the loop of JournalArticle._load_keywords (cstug
lines 328-348) over the children of the additional-content element in
document order, with the index tracking which child has no previous
sibling: non-abstract children are skipped. -/
def loadKeywordsGo (lang : String) :
    Nat → List AcElem → Except PyErr (List (String × String))
  | _, [] => Except.ok []
  | i, e :: rest =>
    if e.tag = "abstract" then
      keywordAbstractStep lang i e.kwTexts (loadKeywordsGo lang (i + 1) rest)
    else loadKeywordsGo lang (i + 1) rest

/-- Translation of JournalArticle._load_keywords (cstug lines
325-348). -/
def loadKeywords (lang : String) (children : List AcElem) :
    Except PyErr (List (String × String)) :=
  loadKeywordsGo lang 0 children

/-- Lexicographic comparison of (language, text) pairs, the order
Python sorted uses on pairs of strings. -/
def pairLe (a b : String × String) : Prop :=
  a.1 < b.1 ∨ (a.1 = b.1 ∧ a.2 ≤ b.2)

instance pairLe.decRel : DecidableRel pairLe := fun a b =>
  inferInstanceAs (Decidable (a.1 < b.1 ∨ (a.1 = b.1 ∧ a.2 ≤ b.2)))

instance pairLe.total : IsTotal (String × String) pairLe where
  total a b := by
    rcases lt_trichotomy a.1 b.1 with h | h | h
    · exact Or.inl (Or.inl h)
    · rcases le_total a.2 b.2 with h2 | h2
      · exact Or.inl (Or.inr ⟨h, h2⟩)
      · exact Or.inr (Or.inr ⟨h.symm, h2⟩)
    · exact Or.inr (Or.inl h)

instance pairLe.trans : IsTrans (String × String) pairLe where
  trans a b c hab hbc := by
    rcases hab with h1 | ⟨h1, h1b⟩
    · rcases hbc with h2 | ⟨h2, _⟩
      · exact Or.inl (h1.trans h2)
      · exact Or.inl (h2 ▸ h1)
    · rcases hbc with h2 | ⟨h2, h2b⟩
      · exact Or.inl (h1 ▸ h2)
      · exact Or.inr ⟨h1.trans h2, h1b.trans h2b⟩

/-- Python set addition: the model keeps elements in insertion order,
skipping duplicates; sorting at the end makes the representation
order irrelevant. -/
def addSet (s : List (String × String)) (x : String × String) :
    List (String × String) :=
  if x ∈ s then s else s ++ [x]

/-- A child element of the titles element of an article: its tag, its
normalized text, and its language attribute when present. -/
structure TElem where
  tag : String
  text : String
  lang : Option String

/-- The subtitle loops of _load_titles (cstug lines 181-187 and
198-204) over the subtitle elements each paired with their previous
sibling: a subtitle that is the first child makes getprevious return
None and the tag access raise AttributeError; otherwise the first
subtitle whose previous sibling has the wanted tag is returned. -/
def subtitleFor (wanted : String) :
    List (TElem × Option TElem) → Except PyErr (Option String)
  | [] => Except.ok none
  | (st, prev) :: rest =>
    match prev with
    | none => Except.error PyErr.attributeError
    | some p =>
      if p.tag = wanted then Except.ok (some st.text)
      else subtitleFor wanted rest

/-- The subtitle elements of the titles element, each paired with its
previous sibling in document order. -/
def subsWithPrev (children : List TElem) : List (TElem × Option TElem) :=
  (children.enum).filterMap
    (fun ei =>
      if ei.2.tag = "subtitle" then
        some (ei.2, if ei.1 = 0 then none else children.get? (ei.1 - 1))
      else none)

/-- The main title text of _load_titles (cstug lines 176-187): exactly
one title element, concatenated with the first subtitle whose previous
sibling is the title element. -/
def mainTitleText (titlesChildren : List TElem) : Except PyErr String :=
  match titlesChildren.filter (fun e => e.tag = "title") with
  | [mainTitle] =>
    match subtitleFor "title" (subsWithPrev titlesChildren) with
    | Except.error e => Except.error e
    | Except.ok none => Except.ok mainTitle.text
    | Except.ok (some s) => Except.ok (mainTitle.text ++ ": " ++ s)
  | _ => Except.error PyErr.valueError

/-- The optional original-language title entry of _load_titles (cstug
lines 191-206): its language attribute normalized, its text
concatenated with the first subtitle whose previous sibling is the
original_language_title element. -/
def origTitleEntry (titlesChildren : List TElem) :
    Except PyErr (Option (String × String)) :=
  match titlesChildren.filter (fun e => e.tag = "original_language_title") with
  | [] => Except.ok none
  | [orig] =>
    match orig.lang with
    | none => Except.error PyErr.keyError
    | some lc =>
      match normalize_language lc with
      | Except.error e => Except.error e
      | Except.ok olang =>
        match subtitleFor "original_language_title" (subsWithPrev titlesChildren) with
        | Except.error e => Except.error e
        | Except.ok none => Except.ok (some (olang, orig.text))
        | Except.ok (some s) => Except.ok (some (olang, orig.text ++ ": " ++ s))
  | _ => Except.error PyErr.valueError

/-- The optional additional-content title entry of _load_titles (cstug
lines 208-214), in the inverse language. -/
def acTitleEntry (selfLang : String) (acTitles : List String) :
    Except PyErr (Option (String × String)) :=
  match acTitles with
  | [] => Except.ok none
  | [t] =>
    match invert_language selfLang with
    | Except.error e => Except.error e
    | Except.ok alang => Except.ok (some (alang, t))
  | _ => Except.error PyErr.valueError

/-- The title set of _load_titles (cstug lines 173-214) before the
final sort: the main title, then the optional original-language title,
then the optional additional-content title, added to a set. -/
def titleSet (selfLang : String) (titlesChildren : List TElem)
    (acTitles : List String) : Except PyErr (List (String × String)) :=
  match mainTitleText titlesChildren with
  | Except.error e => Except.error e
  | Except.ok mainText =>
    match origTitleEntry titlesChildren with
    | Except.error e => Except.error e
    | Except.ok oEntry =>
      match acTitleEntry selfLang acTitles with
      | Except.error e => Except.error e
      | Except.ok aEntry =>
        let set1 := addSet [] (selfLang, mainText)
        let set2 := match oEntry with | none => set1 | some p => addSet set1 p
        let set3 := match aEntry with | none => set2 | some p => addSet set2 p
        Except.ok set3

/-- Translation of JournalArticle._load_titles (cstug lines 173-216):
the deduplicated title set, sorted. -/
def loadTitles (selfLang : String) (titlesChildren : List TElem)
    (acTitles : List String) : Except PyErr (List (String × String)) :=
  match titleSet selfLang titlesChildren acTitles with
  | Except.error e => Except.error e
  | Except.ok s => Except.ok (List.insertionSort pairLe s)

/-- The loop of JournalArticle._load_summaries (cstug lines 354-369)
over the children of the additional-content element: skip non-abstract
children and abstracts without paragraphs, pick the language by the
getprevious test (recording the main summary language on the
first-child branch), join the paragraphs with blank lines, and add the
summary to the set. -/
def loadSummGo (lang : String) :
    Nat → List AcElem → List (String × String) → Option String →
      Except PyErr (List (String × String) × Option String)
  | _, [], acc, m => Except.ok (acc, m)
  | i, e :: rest, acc, m =>
    if e.tag = "abstract" then
      match e.paras with
      | [] => loadSummGo lang (i + 1) rest acc m
      | ps =>
        let langStep : Except PyErr (String × Option String) :=
          if i = 0 then Except.ok (lang, some lang)
          else
            match invert_language lang with
            | Except.error e2 => Except.error e2
            | Except.ok il => Except.ok (il, m)
        match langStep with
        | Except.error e2 => Except.error e2
        | Except.ok (slang, m2) =>
          loadSummGo lang (i + 1) rest
            (addSet acc (slang, String.intercalate "\n\n" ps)) m2
    else loadSummGo lang (i + 1) rest acc m

/-- Translation of JournalArticle._load_summaries (cstug lines
350-371): the deduplicated summary set, sorted, with the main summary
language. -/
def loadSummaries (lang : String) (children : List AcElem) :
    Except PyErr (List (String × String) × Option String) :=
  match loadSummGo lang 0 children [] none with
  | Except.error e => Except.error e
  | Except.ok (acc, m) => Except.ok (List.insertionSort pairLe acc, m)

theorem sliceGo_ok {α : Type} (pdf : List α) (off fpn : Int) :
    ∀ (ns : List Int) (out : List α),
      sliceGo pdf off fpn ns = Except.ok out →
      out.length = ns.length ∧
      ∀ (k : Nat) (hk : k < out.length) (hn : k < ns.length),
        getPage pdf (ns.get ⟨k, hn⟩ + off - fpn) = Except.ok (out.get ⟨k, hk⟩)
  | [], out => by
    intro h
    simp only [sliceGo] at h
    cases h
    exact ⟨rfl, fun k hk => by simp at hk⟩
  | n :: ns, out => by
    intro h
    simp only [sliceGo] at h
    cases hp : getPage pdf (n + off - fpn) with
    | error e => rw [hp] at h; cases h
    | ok p =>
      rw [hp] at h
      cases hr : sliceGo pdf off fpn ns with
      | error e => rw [hr] at h; cases h
      | ok rest =>
        rw [hr] at h
        simp only [Except.ok.injEq] at h
        subst h
        obtain ⟨hlen, hget⟩ := sliceGo_ok pdf off fpn ns rest hr
        refine ⟨by simp [hlen], ?_⟩
        intro k hk hn
        cases k with
        | zero => simpa using hp
        | succ k =>
          simp only [List.get_cons_succ]
          exact hget k (by simpa using hk) (by simpa using hn)

theorem intRange_length (a b : Int) : (intRange a b).length = (b + 1 - a).toNat := by
  rw [intRange, List.length_map, List.length_range]

theorem intRange_get (a b : Int) (k : Nat) (hk : k < (intRange a b).length) :
    (intRange a b).get ⟨k, hk⟩ = a + (k : Int) := by
  simp only [intRange, List.get_eq_getElem, List.getElem_map, List.getElem_range]

/-- C2: for every article whose logical page range satisfies
first ≤ last, a successful write_pdf yields exactly last - first + 1
pages, the k-th output page being the source page at physical index
(first + k) + page_offset - first_page_number. -/
theorem write_pdf_slices_ascending {α : Type} (first last off fpn : Int)
    (pdf : List α) (out : List α)
    (hle : first ≤ last)
    (hok : writePdfPages (first, last) pdf off fpn = Except.ok out) :
    (out.length : Int) = last - first + 1 ∧
    ∀ (k : Nat) (hk : k < out.length),
      getPage pdf (first + (k : Int) + off - fpn) = Except.ok (out.get ⟨k, hk⟩) := by
  obtain ⟨hlen, hget⟩ := sliceGo_ok pdf off fpn (intRange first last) out hok
  have hlen2 : out.length = (last + 1 - first).toNat := by
    rw [hlen, intRange_length]
  constructor
  · rw [hlen2]
    have : (0 : Int) ≤ last + 1 - first := by omega
    omega
  · intro k hk
    have hn : k < (intRange first last).length := by rw [← hlen]; exact hk
    have := hget k hk hn
    rwa [intRange_get, add_comm first (k : Int), add_comm (k : Int) first] at this

/-- Witness for C2 at Scenario A of the spec: pages (5,5), offset 0,
first logical page 1, a five-page source PDF. -/
theorem write_pdf_slices_ascending_witness :
    ((([50] : List Nat).length : Int) = 5 - 5 + 1 ∧
      ∀ (k : Nat) (hk : k < ([50] : List Nat).length),
        getPage [10, 20, 30, 40, 50] (5 + (k : Int) + 0 - 1) =
          Except.ok (([50] : List Nat).get ⟨k, hk⟩)) :=
  write_pdf_slices_ascending 5 5 0 1 [10, 20, 30, 40, 50] [50]
    (by decide) rfl

/-- C1: invert_language maps cze and slo to eng; on eng the code does
not raise but returns the literal TODO placeholder string, and only a
code outside the closed set makes it fail (with AssertionError, not a
dedicated NoInverseLanguage error). -/
theorem invert_language_eval :
    invert_language "cze" = Except.ok "eng" ∧
    invert_language "slo" = Except.ok "eng" ∧
    invert_language "eng" = Except.ok "TODO: cze nebo slo, který z nich to je?" ∧
    invert_language "fra" = Except.error PyErr.assertionError :=
  ⟨rfl, rfl, rfl, rfl⟩

theorem articleWritePdf_ok_events {α : Type} (a : ArticleData) (pdf : List α)
    (off fpn : Int) (dir : String) (evs : List FsEvent)
    (h : articleWritePdf a pdf off fpn dir = Except.ok evs) :
    evs = [FsEvent.mkdirE dir, FsEvent.writeE dir "source.pdf"] := by
  unfold articleWritePdf at h
  cases hw : writePdfPages a.pages pdf off fpn with
  | error e => rw [hw] at h; cases h
  | ok _ => rw [hw] at h; cases h; rfl

theorem issueGo_ok_events {α : Type} (pdf : List α) (off fpn : Int) :
    ∀ (arts : List ArticleData) (n : Nat) (evs : List FsEvent),
      issueGo pdf off fpn n arts = Except.ok evs → evs = goodEvents n arts
  | [], n, evs => by intro h; cases h; rfl
  | a :: rest, n, evs => by
    intro h
    simp only [issueGo] at h
    cases hp : articleWritePdf a pdf off fpn (dirLabel n) with
    | error e => rw [hp] at h; cases h
    | ok pdfEvs =>
      rw [hp] at h
      cases hr : issueGo pdf off fpn (n + 1) rest with
      | error pr => rw [hr] at h; obtain ⟨evs0, e0⟩ := pr; cases h
      | ok evs0 =>
        rw [hr] at h
        cases h
        rw [articleWritePdf_ok_events a pdf off fpn (dirLabel n) pdfEvs hp,
          issueGo_ok_events pdf off fpn rest (n + 1) evs0 hr]
        simp [goodEvents]

theorem issueGo_error_events {α : Type} (pdf : List α) (off fpn : Int) :
    ∀ (arts : List ArticleData) (n : Nat) (evs : List FsEvent) (e : PyErr),
      issueGo pdf off fpn n arts = Except.error (evs, e) →
      ∃ (N : Nat) (hN : N < arts.length),
        evs = goodEvents n (arts.take N) ++
          articleWriteXml (arts.get ⟨N, hN⟩) (dirLabel (n + N)) ∧
        articleWritePdf (arts.get ⟨N, hN⟩) pdf off fpn (dirLabel (n + N)) =
          Except.error e
  | [], n, evs, e => by intro h; cases h
  | a :: rest, n, evs, e => by
    intro h
    simp only [issueGo] at h
    cases hp : articleWritePdf a pdf off fpn (dirLabel n) with
    | error e0 =>
      rw [hp] at h
      cases h
      refine ⟨0, by simp, ?_, ?_⟩
      · simp [goodEvents]
      · simpa using hp
    | ok pdfEvs =>
      rw [hp] at h
      cases hr : issueGo pdf off fpn (n + 1) rest with
      | error pr =>
        obtain ⟨evs0, e0⟩ := pr
        rw [hr] at h
        cases h
        obtain ⟨N0, hN0, hevs, hfail⟩ :=
          issueGo_error_events pdf off fpn rest (n + 1) _ _ hr
        refine ⟨N0 + 1, by simpa using Nat.succ_lt_succ hN0, ?_, ?_⟩
        · rw [articleWritePdf_ok_events a pdf off fpn (dirLabel n) pdfEvs hp, hevs]
          simp only [List.take_succ_cons, goodEvents, List.get_cons_succ]
          have : n + (N0 + 1) = n + 1 + N0 := by omega
          rw [this]
          simp [List.append_assoc]
        · have : n + (N0 + 1) = n + 1 + N0 := by omega
          rw [this]
          simpa using hfail
      | ok evs0 => rw [hr] at h; cases h

/-- C3 counterexample: with a single article whose page range is out of
the source PDF's bounds, the run fails on the article's PDF slice, yet
the article's meta.xml has already been written, because write_xml runs
before write_pdf in the issue loop. -/
theorem issue_meta_written_before_pdf_failure :
    issueWriteXml [⟨[], [], "cze", [], [], none, none, "informatics", (1, 1), []⟩]
        ([] : List Nat) 0 "out" =
      Except.error
        ([FsEvent.mkdirE "out", FsEvent.mkdirE "#1", FsEvent.writeE "#1" "meta.xml"],
          PyErr.indexError) ∧
    FsEvent.writeE "#1" "meta.xml" ∈
      [FsEvent.mkdirE "out", FsEvent.mkdirE "#1", FsEvent.writeE "#1" "meta.xml"] :=
  ⟨rfl, by decide⟩

/-- C3 amended: when processing article N fails, the trace holds the
complete output of articles 1..N-1 followed by article N's XML writes
(meta.xml, and references.xml when it has references); article N's
source.pdf itself was not written, and a fully successful run writes
every article's files in order. -/
theorem issue_partial_output_characterization {α : Type} :
    (∀ (articles : List ArticleData) (pdf : List α) (off : Int) (outDir : String)
        (evs : List FsEvent) (e : PyErr),
      issueWriteXml articles pdf off outDir = Except.error (evs, e) →
      ∃ (N : Nat) (hN : N < articles.length),
        evs = FsEvent.mkdirE outDir ::
          (goodEvents 1 (articles.take N) ++
            articleWriteXml (articles.get ⟨N, hN⟩) (dirLabel (1 + N))) ∧
        articleWritePdf (articles.get ⟨N, hN⟩) pdf off (fpnOf articles)
          (dirLabel (1 + N)) = Except.error e) ∧
    (∀ (articles : List ArticleData) (pdf : List α) (off : Int) (outDir : String)
        (evs : List FsEvent),
      issueWriteXml articles pdf off outDir = Except.ok evs →
      evs = FsEvent.mkdirE outDir :: goodEvents 1 articles) := by
  constructor
  · intro articles pdf off outDir evs e h
    unfold issueWriteXml at h
    cases hg : issueGo pdf off (fpnOf articles) 1 articles with
    | error pr =>
      obtain ⟨evs0, e0⟩ := pr
      rw [hg] at h
      cases h
      obtain ⟨N, hN, hevs, hfail⟩ :=
        issueGo_error_events pdf off (fpnOf articles) articles 1 _ _ hg
      exact ⟨N, hN, by rw [hevs], hfail⟩
    | ok evs0 => rw [hg] at h; cases h
  · intro articles pdf off outDir evs h
    unfold issueWriteXml at h
    cases hg : issueGo pdf off (fpnOf articles) 1 articles with
    | error pr => obtain ⟨evs0, e0⟩ := pr; rw [hg] at h; cases h
    | ok evs0 =>
      rw [hg] at h
      cases h
      rw [issueGo_ok_events pdf off (fpnOf articles) articles 1 evs0 hg]

/-- Witness for C3: the amended characterization applied to the
concrete failing run of the counterexample input. -/
theorem issue_partial_output_characterization_witness :
    ∃ (N : Nat)
      (hN : N < ([⟨[], [], "cze", [], [], none, none, "informatics", (1, 1), []⟩] :
        List ArticleData).length),
      [FsEvent.mkdirE "out", FsEvent.mkdirE "#1", FsEvent.writeE "#1" "meta.xml"] =
        FsEvent.mkdirE "out" ::
          (goodEvents 1 (([⟨[], [], "cze", [], [], none, none, "informatics", (1, 1), []⟩] :
              List ArticleData).take N) ++
            articleWriteXml
              (([⟨[], [], "cze", [], [], none, none, "informatics", (1, 1), []⟩] :
                List ArticleData).get ⟨N, hN⟩) (dirLabel (1 + N))) ∧
      articleWritePdf
          (([⟨[], [], "cze", [], [], none, none, "informatics", (1, 1), []⟩] :
            List ArticleData).get ⟨N, hN⟩) ([] : List Nat) 0
          (fpnOf [⟨[], [], "cze", [], [], none, none, "informatics", (1, 1), []⟩])
          (dirLabel (1 + N)) = Except.error PyErr.indexError :=
  issue_partial_output_characterization.1
    [⟨[], [], "cze", [], [], none, none, "informatics", (1, 1), []⟩]
    ([] : List Nat) 0 "out"
    [FsEvent.mkdirE "out", FsEvent.mkdirE "#1", FsEvent.writeE "#1" "meta.xml"]
    PyErr.indexError rfl

/-- C4: the CrossRef write_xml at a concrete article without citations
writes only meta.xml, and at a concrete article with one citation it
raises AttributeError after writing meta.xml — the name-mangled
reference writer is never reached, so references.xml is never
written. -/
theorem crossref_references_write_eval :
    crossrefWriteXml ⟨[], [], "eng", none, "informatics", (1, 1), []⟩ "#1" =
      Except.ok [FsEvent.mkdirE "#1", FsEvent.writeE "#1" "meta.xml"] ∧
    crossrefWriteXml
        ⟨[], [], "eng", none, "informatics", (1, 1),
          [⟨1, "[1]", none, none, ". DOI: 10.0/x"⟩]⟩ "#1" =
      Except.error
        ([FsEvent.mkdirE "#1", FsEvent.writeE "#1" "meta.xml"], PyErr.attributeError) :=
  ⟨rfl, rfl⟩

theorem anyKey_iff_lookup (kvs : List (String × PyJson)) (k : String) :
    kvs.any (fun kv => kv.1 = k) = true ↔ ∃ v, lookupKV kvs k = some v := by
  induction kvs with
  | nil => simp [lookupKV]
  | cons kv rest ih =>
    obtain ⟨k0, v0⟩ := kv
    by_cases hk : k0 = k
    · subst hk
      simp [lookupKV]
    · simp only [List.any_cons, lookupKV, if_neg hk, decide_eq_true_eq, Bool.or_eq_true]
      constructor
      · intro h
        rcases h with h | h
        · exact absurd h hk
        · exact ih.mp h
      · intro h
        exact Or.inr (ih.mpr h)

theorem jwalk_allIdx :
    ∀ (fs : List Frag), (∀ f ∈ fs, ∃ n, f = Frag.idx n) →
      ∀ (v : PyJson), ∃ j, jwalk v fs = Except.ok j
  | [], _, v => ⟨v, by simp [jwalk]⟩
  | f :: fs, hall, v => by
    obtain ⟨n, hn⟩ := hall f (List.mem_cons_self f fs)
    subst hn
    have hall2 : ∀ f ∈ fs, ∃ n, f = Frag.idx n :=
      fun f hf => hall f (List.mem_cons_of_mem _ hf)
    cases v with
    | arr xs =>
      cases hx : xs.get? n with
      | some w =>
        obtain ⟨j, hj⟩ := jwalk_allIdx fs hall2 w
        rw [List.get?_eq_getElem?] at hx
        exact ⟨j, by simp [jwalk, hx, hj]⟩
      | none =>
        rw [List.get?_eq_getElem?] at hx
        exact ⟨PyJson.arr xs, by simp [jwalk, hx]⟩
    | obj kvs => exact ⟨PyJson.obj kvs, rfl⟩
    | str s => exact ⟨PyJson.str s, rfl⟩
    | int i => exact ⟨PyJson.int i, rfl⟩
    | bool b => exact ⟨PyJson.bool b, rfl⟩
    | null => exact ⟨PyJson.null, rfl⟩

theorem find_of_jwalk_ok (r : PyJson) (addr : List Frag) (j : PyJson)
    (h : jwalk r addr = Except.ok j) :
    ∃ o, find_optional_in_json r addr = Except.ok o := by
  cases j <;> simp [find_optional_in_json, h]

theorem find_ok_single (kvs : List (String × PyJson)) (k : String) :
    ∃ o, find_optional_in_json (PyJson.obj kvs) [Frag.key k] = Except.ok o := by
  cases hl : lookupKV kvs k with
  | none =>
    refine find_of_jwalk_ok _ _ (PyJson.obj kvs) ?_
    simp [jwalk, hl]
  | some v =>
    refine find_of_jwalk_ok _ _ v ?_
    simp [jwalk, hl]

theorem find_ok_key_idx (kvs : List (String × PyJson)) (k : String) (n : Nat) :
    ∃ o, find_optional_in_json (PyJson.obj kvs) [Frag.key k, Frag.idx n] =
      Except.ok o := by
  cases hl : lookupKV kvs k with
  | none =>
    refine find_of_jwalk_ok _ _ (PyJson.obj kvs) ?_
    simp [jwalk, hl]
  | some v =>
    obtain ⟨j, hj⟩ := jwalk_allIdx [Frag.idx n] (by simp) v
    refine find_of_jwalk_ok _ _ j ?_
    simp [jwalk, hl, hj]

theorem find_ok_published_print (kvs : List (String × PyJson))
    (hpp : ∀ v, lookupKV kvs "published-print" = some v →
      ∀ xs, v ≠ PyJson.arr xs) :
    ∃ o, find_optional_in_json (PyJson.obj kvs)
      [Frag.key "published-print", Frag.key "date-parts", Frag.idx 0, Frag.idx 0] =
        Except.ok o := by
  cases hl : lookupKV kvs "published-print" with
  | none =>
    refine find_of_jwalk_ok _ _ (PyJson.obj kvs) ?_
    simp [jwalk, hl]
  | some v =>
    have hv := hpp v hl
    cases v with
    | arr xs => exact absurd rfl (hv xs)
    | obj kvs2 =>
      cases hl2 : lookupKV kvs2 "date-parts" with
      | none =>
        refine find_of_jwalk_ok _ _ (PyJson.obj kvs2) ?_
        simp [jwalk, hl, hl2]
      | some w =>
        obtain ⟨j, hj⟩ := jwalk_allIdx [Frag.idx 0, Frag.idx 0] (by simp) w
        refine find_of_jwalk_ok _ _ j ?_
        simp [jwalk, hl, hl2, hj]
    | str s => exact find_of_jwalk_ok _ _ (PyJson.str s) (by simp [jwalk, hl])
    | int i => exact find_of_jwalk_ok _ _ (PyJson.int i) (by simp [jwalk, hl])
    | bool b => exact find_of_jwalk_ok _ _ (PyJson.bool b) (by simp [jwalk, hl])
    | null => exact find_of_jwalk_ok _ _ PyJson.null (by simp [jwalk, hl])

theorem lookup_insertKV_ne (name k v : String)
    (hne : k ≠ name) :
    ∀ acc : List (String × String),
      (insertKV acc k v).lookup name = acc.lookup name
  | [] => by
    have hb : (name == k) = false := beq_eq_false_iff_ne.mpr (fun h => hne h.symm)
    simp [insertKV, List.lookup, hb]
  | (k0, v0) :: rest => by
    by_cases hk : k0 = k
    · subst hk
      have hb : (name == k0) = false := beq_eq_false_iff_ne.mpr (fun h => hne h.symm)
      simp [insertKV, List.lookup, hb]
    · by_cases h0 : name = k0
      · subst h0
        simp [insertKV, if_neg hk, List.lookup]
      · have hb : (name == k0) = false := beq_eq_false_iff_ne.mpr h0
        simp [insertKV, if_neg hk, List.lookup, hb,
          lookup_insertKV_ne name k v hne rest]

theorem optFold_ok (resolved : PyJson) :
    ∀ (ls : List (List Frag × String)) (acc : List (String × String)),
      (∀ p ∈ ls, ∃ o, find_optional_in_json resolved p.1 = Except.ok o) →
      ∃ r, optFold resolved acc ls = Except.ok r
  | [], acc, _ => ⟨acc, rfl⟩
  | p :: ps, acc, hall => by
    obtain ⟨o, ho⟩ := hall p (List.mem_cons_self p ps)
    have hall2 : ∀ q ∈ ps, ∃ o, find_optional_in_json resolved q.1 = Except.ok o :=
      fun q hq => hall q (List.mem_cons_of_mem _ hq)
    cases o with
    | none =>
      obtain ⟨r, hr⟩ := optFold_ok resolved ps acc hall2
      exact ⟨r, by simp [optFold, optStep, ho, hr]⟩
    | some s =>
      obtain ⟨r, hr⟩ := optFold_ok resolved ps (insertKV acc p.2 s) hall2
      exact ⟨r, by simp [optFold, optStep, ho, hr]⟩

theorem optFold_lookup_none (resolved : PyJson) (name : String) :
    ∀ (ls : List (List Frag × String)) (acc : List (String × String))
      (r : List (String × String)),
      (∀ p ∈ ls, p.2 = name → find_optional_in_json resolved p.1 = Except.ok none) →
      acc.lookup name = none →
      optFold resolved acc ls = Except.ok r →
      r.lookup name = none
  | [], acc, r, _, hacc, h => by
    cases h
    exact hacc
  | p :: ps, acc, r, hnone, hacc, h => by
    simp only [optFold] at h
    cases ho : optStep resolved acc p with
    | error e => rw [ho] at h; cases h
    | ok acc2 =>
      rw [ho] at h
      have hnone2 : ∀ q ∈ ps, q.2 = name →
          find_optional_in_json resolved q.1 = Except.ok none :=
        fun q hq => hnone q (List.mem_cons_of_mem _ hq)
      unfold optStep at ho
      cases hf : find_optional_in_json resolved p.1 with
      | error e => rw [hf] at ho; cases ho
      | ok o =>
        rw [hf] at ho
        cases o with
        | none =>
          cases ho
          exact optFold_lookup_none resolved name ps _ r hnone2 hacc h
        | some s =>
          cases ho
          by_cases hp : p.2 = name
          · have := hnone p (List.mem_cons_self p ps) hp
            rw [hf] at this
            cases this
          · refine optFold_lookup_none resolved name ps _ r hnone2 ?_ h
            rw [lookup_insertKV_ne name p.2 s hp acc]
            exact hacc

theorem optionalAddrs_finds_ok (kvs : List (String × PyJson))
    (hpp : ∀ v, lookupKV kvs "published-print" = some v →
      ∀ xs, v ≠ PyJson.arr xs) :
    ∀ p ∈ optionalAddrs,
      ∃ o, find_optional_in_json (PyJson.obj kvs) p.1 = Except.ok o := by
  intro p hp
  simp only [optionalAddrs, List.mem_cons, List.mem_singleton] at hp
  rcases hp with h | h | h | h | h | h | h
  · subst h; exact find_ok_single kvs "publisher"
  · subst h; exact find_ok_published_print kvs hpp
  · subst h; exact find_ok_single kvs "issue"
  · subst h; exact find_ok_single kvs "volume"
  · subst h; exact find_ok_single kvs "page"
  · subst h; exact find_ok_key_idx kvs "ISSN" 0
  · cases h

theorem doiTitleStep_obj_ok (kvs : List (String × PyJson)) :
    ∃ t, doiTitleStep (PyJson.obj kvs) = Except.ok t := by
  unfold doiTitleStep
  simp only [pyContains]
  cases hA : kvs.any (fun kv => kv.1 = "title") with
  | false => exact ⟨PyJson.str "TODO: Doplnit!", by simp⟩
  | true =>
    obtain ⟨v, hv⟩ := (anyKey_iff_lookup kvs "title").mp hA
    exact ⟨v, by simp [pySubscript, hv]⟩

theorem doiAuthorStep_obj_ok (kvs : List (String × PyJson))
    (hauth : ∀ v, lookupKV kvs "author" = some v → truthy v = true →
      ∃ a0 rest, v = PyJson.arr (a0 :: rest) ∧
        (∃ g, pySubscript a0 "given" = Except.ok g) ∧
        (∃ f, pySubscript a0 "family" = Except.ok f)) :
    ∃ a, doiAuthorStep (PyJson.obj kvs) = Except.ok a := by
  unfold doiAuthorStep
  simp only [pyContains]
  cases hA : kvs.any (fun kv => kv.1 = "author") with
  | false => exact ⟨[], by simp⟩
  | true =>
    obtain ⟨v, hv⟩ := (anyKey_iff_lookup kvs "author").mp hA
    cases ht : truthy v with
    | false => exact ⟨[], by simp [pySubscript, hv, ht]⟩
    | true =>
      obtain ⟨a0, rest, hveq, ⟨g, hg⟩, ⟨f, hf⟩⟩ := hauth v hv ht
      subst hveq
      refine ⟨[(g, f)], ?_⟩
      have h1 : pySubscript (PyJson.obj kvs) "author" =
          Except.ok (PyJson.arr (a0 :: rest)) := by
        simp [pySubscript, hv]
      have h2 : pySubscriptIdx (PyJson.arr (a0 :: rest)) 0 = Except.ok a0 := by
        simp [pySubscriptIdx]
      simp [h1, ht, h2, hg, hf]

/-- C5 counterexample: a resolved metadata object whose author list's
first entry lacks the given key makes the extraction raise KeyError,
so the extraction is not raise-free on all JSON-like inputs. -/
theorem doi_metadata_extraction_raises :
    processDoiCitation 1 "10.0/x"
        (PyJson.obj [("author", PyJson.arr [PyJson.obj []])]) =
      Except.error PyErr.keyError := rfl

/-- C5 amended: for a resolved metadata object (i) whose
published-print value, when present, is not an array, and (ii) whose
author value, when present and truthy, is a non-empty array whose
first entry has subscriptable given and family values, the extraction
of title, first author and the six optional fields never raises, and
an optional field whose path-walk is omitted never appears among the
output optionals. -/
theorem doi_metadata_extraction_tolerant (refid : Nat) (doi : String)
    (kvs : List (String × PyJson))
    (hpp : ∀ v, lookupKV kvs "published-print" = some v →
      ∀ xs, v ≠ PyJson.arr xs)
    (hauth : ∀ v, lookupKV kvs "author" = some v → truthy v = true →
      ∃ a0 rest, v = PyJson.arr (a0 :: rest) ∧
        (∃ g, pySubscript a0 "given" = Except.ok g) ∧
        (∃ f, pySubscript a0 "family" = Except.ok f)) :
    ∃ out, processDoiCitation refid doi (PyJson.obj kvs) = Except.ok out ∧
      ∀ p ∈ optionalAddrs,
        find_optional_in_json (PyJson.obj kvs) p.1 = Except.ok none →
        out.optionals.lookup p.2 = none := by
  obtain ⟨t, ht⟩ := doiTitleStep_obj_ok kvs
  obtain ⟨a, ha⟩ := doiAuthorStep_obj_ok kvs hauth
  have hfinds := optionalAddrs_finds_ok kvs hpp
  obtain ⟨r, hr⟩ :=
    optFold_ok (PyJson.obj kvs) optionalAddrs
      [("URL", "https://dx.doi.org/" ++ doi)] hfinds
  refine ⟨⟨refid, "[" ++ toString refid ++ "]", t, a, ". TODO: Doplnit!", r⟩, ?_, ?_⟩
  · simp [processDoiCitation, ht, ha, hr]
  intro p hp hfp
  have hnone : ∀ q ∈ optionalAddrs, q.2 = p.2 →
      find_optional_in_json (PyJson.obj kvs) q.1 = Except.ok none := by
    intro q hq hq2
    have hmapnd : ((optionalAddrs.map Prod.snd).Nodup) := by decide
    have := List.inj_on_of_nodup_map hmapnd hq hp hq2
    rw [this]
    exact hfp
  have hbase : ([("URL", "https://dx.doi.org/" ++ doi)] :
      List (String × String)).lookup p.2 = none := by
    have hne : p.2 ≠ "URL" := by
      have : ∀ q ∈ optionalAddrs, q.2 ≠ "URL" := by decide
      exact this p hp
    have hb : (p.2 == "URL") = false := beq_eq_false_iff_ne.mpr hne
    simp [List.lookup, hb]
  exact optFold_lookup_none (PyJson.obj kvs) p.2 optionalAddrs _ r hnone hbase hr

/-- Witness for C5 amended: the tolerant extraction applied to the
concrete resolved object with one publisher field. -/
theorem doi_metadata_extraction_tolerant_witness :
    ∃ out, processDoiCitation 1 "10.0/x"
        (PyJson.obj [("publisher", PyJson.str "P")]) = Except.ok out ∧
      ∀ p ∈ optionalAddrs,
        find_optional_in_json (PyJson.obj [("publisher", PyJson.str "P")]) p.1 =
          Except.ok none →
        out.optionals.lookup p.2 = none :=
  doi_metadata_extraction_tolerant 1 "10.0/x" [("publisher", PyJson.str "P")]
    (by intro v h; simp [lookupKV] at h)
    (by intro v h; simp [lookupKV] at h)

/-- C6: a DOI-bearing citation whose lookup response has a non-success
status is processed with empty resolved metadata, yielding a complete
reference record with the placeholder title and suffix, no author
entries, and only the URL optional — the run continues. -/
theorem doi_lookup_failure_placeholder (refid : Nat) (doi : String)
    (status : Nat) (body : PyJson) (h : status ≠ 200) :
    processDoiCitation refid doi (resolve_doi status body) =
      Except.ok
        { rid := refid
          pre := "[" ++ toString refid ++ "]"
          title := PyJson.str "TODO: Doplnit!"
          authorNames := []
          suffix := ". TODO: Doplnit!"
          optionals := [("URL", "https://dx.doi.org/" ++ doi)] } := by
  rw [resolve_doi, if_neg h]
  rfl

/-- Witness for C6 at a concrete 404 response. -/
theorem doi_lookup_failure_placeholder_witness :
    processDoiCitation 1 "10.0/x" (resolve_doi 404 PyJson.null) =
      Except.ok
        { rid := 1
          pre := "[" ++ toString 1 ++ "]"
          title := PyJson.str "TODO: Doplnit!"
          authorNames := []
          suffix := ". TODO: Doplnit!"
          optionals := [("URL", "https://dx.doi.org/" ++ "10.0/x")] } :=
  doi_lookup_failure_placeholder 1 "10.0/x" 404 PyJson.null (by decide)

theorem crossrefLoadGo_ok :
    ∀ (ps : List PersonName) (k : Nat) (l : List (Nat × String × String)),
      crossrefLoadGo k ps = Except.ok l →
      l.length = ps.length ∧
      l.map Prod.fst = List.range' k ps.length ∧
      ∀ (i : Nat) (hi : i < l.length) (hp : i < ps.length),
        (ps.get ⟨i, hp⟩).surname = [(l.get ⟨i, hi⟩).2.1]
  | [], k, l => by
    intro h
    cases h
    exact ⟨rfl, by simp, fun i hi => by simp at hi⟩
  | ⟨sa, ra, gn, sn⟩ :: rest, k, l => by
    intro h
    cases gn with
    | nil => cases h
    | cons g gs =>
      cases gs with
      | cons _ _ => cases h
      | nil =>
        cases sn with
        | nil => cases h
        | cons ln lns =>
          cases lns with
          | cons _ _ => cases h
          | nil =>
            simp only [crossrefLoadGo] at h
            cases hr : crossrefLoadGo (k + 1) rest with
            | error e => rw [hr] at h; cases h
            | ok rest2 =>
              rw [hr] at h
              cases h
              obtain ⟨hlen, hmap, hget⟩ := crossrefLoadGo_ok rest (k + 1) rest2 hr
              refine ⟨by simp [hlen], ?_, ?_⟩
              · simp only [List.length_cons, List.map_cons, hmap, List.range'_succ]
              · intro i hi hp
                cases i with
                | zero => simp
                | succ i =>
                  simp only [List.get_cons_succ]
                  exact hget i (by simpa using hi) (by simpa using hp)

theorem cstugLoadGo_ok :
    ∀ (ps : List PersonName) (k : Nat) (l : List (Nat × String × String)),
      cstugLoadGo k ps = Except.ok l →
      l.length = ps.length ∧
      l.map Prod.fst = List.range' k ps.length ∧
      ∀ (i : Nat) (hi : i < l.length) (hp : i < ps.length),
        (ps.get ⟨i, hp⟩).surname = [(l.get ⟨i, hi⟩).2.1]
  | [], k, l => by
    intro h
    cases h
    exact ⟨rfl, by simp, fun i hi => by simp at hi⟩
  | ⟨sa, ra, gn, sn⟩ :: rest, k, l => by
    intro h
    cases gn with
    | nil =>
      cases sn with
      | nil => cases h
      | cons ln lns =>
        cases lns with
        | cons _ _ => cases h
        | nil => cases h
    | cons g gs =>
      cases gs with
      | cons _ _ => cases h
      | nil =>
        cases sn with
        | nil => cases h
        | cons ln lns =>
          cases lns with
          | cons _ _ => cases h
          | nil =>
            simp only [cstugLoadGo] at h
            by_cases hgz : g = ""
            · rw [if_pos hgz] at h; cases h
            · rw [if_neg hgz] at h
              cases hr : cstugLoadGo (k + 1) rest with
              | error e => rw [hr] at h; cases h
              | ok rest2 =>
                rw [hr] at h
                cases h
                obtain ⟨hlen, hmap, hget⟩ := cstugLoadGo_ok rest (k + 1) rest2 hr
                refine ⟨by simp [hlen], ?_, ?_⟩
                · simp only [List.length_cons, List.map_cons, hmap, List.range'_succ]
                · intro i hi hp
                  cases i with
                  | zero => simp
                  | succ i =>
                    simp only [List.get_cons_succ]
                    exact hget i (by simpa using hi) (by simpa using hp)

/-- C7 counterexample: the CrossRef _load_authors includes a
contributor whose contributor_role is editor, so the author list does
not consist only of contributors with role author. -/
theorem crossref_author_role_not_filtered :
    crossrefLoadAuthors [⟨some "first", some "editor", ["J"], ["Doe"]⟩] =
      Except.ok [(1, "Doe", "J")] ∧
    ([⟨some "first", some "editor", ["J"], ["Doe"]⟩] : List PersonName).filter
      (fun p => p.roleAttr = some "author") = [] :=
  ⟨rfl, rfl⟩

/-- C7 amended: the bulletin dialect takes exactly the contributors
with role author, first sequence then additional sequence, while the
CrossRef dialect takes every contributor of those sequences regardless
of role; in both, each taken contributor has exactly one surname
element, and the assigned order values are exactly 1..N in document
order. -/
theorem authors_order_and_surnames :
    (∀ (ps : List PersonName) (l : List (Nat × String × String)),
      cstugLoadAuthors ps = Except.ok l →
      l.length = (cstugAuthorsOf ps).length ∧
      l.map Prod.fst = List.range' 1 l.length ∧
      ∀ (i : Nat) (hi : i < l.length) (hp : i < (cstugAuthorsOf ps).length),
        ((cstugAuthorsOf ps).get ⟨i, hp⟩).surname = [(l.get ⟨i, hi⟩).2.1]) ∧
    (∀ (ps : List PersonName) (l : List (Nat × String × String)),
      crossrefLoadAuthors ps = Except.ok l →
      l.length = (crossrefSeqOf ps).length ∧
      l.map Prod.fst = List.range' 1 l.length ∧
      ∀ (i : Nat) (hi : i < l.length) (hp : i < (crossrefSeqOf ps).length),
        ((crossrefSeqOf ps).get ⟨i, hp⟩).surname = [(l.get ⟨i, hi⟩).2.1]) := by
  constructor
  · intro ps l h
    obtain ⟨hlen, hmap, hget⟩ := cstugLoadGo_ok (cstugAuthorsOf ps) 1 l h
    exact ⟨hlen, by rw [hmap, hlen], hget⟩
  · intro ps l h
    obtain ⟨hlen, hmap, hget⟩ := crossrefLoadGo_ok (crossrefSeqOf ps) 1 l h
    exact ⟨hlen, by rw [hmap, hlen], hget⟩

/-- Witness for C7 amended at a concrete bulletin contributor list. -/
theorem authors_order_and_surnames_witness :
    ([(1, "Doe", "J")] : List (Nat × String × String)).length =
      (cstugAuthorsOf [⟨some "first", some "author", ["J"], ["Doe"]⟩]).length ∧
    ([(1, "Doe", "J")] : List (Nat × String × String)).map Prod.fst =
      List.range' 1 ([(1, "Doe", "J")] : List (Nat × String × String)).length ∧
    ∀ (i : Nat) (hi : i < ([(1, "Doe", "J")] : List (Nat × String × String)).length)
      (hp : i < (cstugAuthorsOf [⟨some "first", some "author", ["J"], ["Doe"]⟩]).length),
      ((cstugAuthorsOf [⟨some "first", some "author", ["J"], ["Doe"]⟩]).get
        ⟨i, hp⟩).surname =
        [(([(1, "Doe", "J")] : List (Nat × String × String)).get ⟨i, hi⟩).2.1] :=
  authors_order_and_surnames.1 [⟨some "first", some "author", ["J"], ["Doe"]⟩]
    [(1, "Doe", "J")] rfl

theorem splitGo_ne_nil :
    ∀ (l : List Char) (b : Bool) (acc : List Char), splitGo b acc l ≠ []
  | [], b, acc => by cases b <;> simp [splitGo]
  | c :: rest, b, acc => by
    cases b with
    | true =>
      simp only [splitGo]
      by_cases h1 : c = ' '
      · rw [if_pos h1]; exact splitGo_ne_nil rest true acc
      · rw [if_neg h1]
        by_cases h2 : c = ','
        · rw [if_pos h2]; simp
        · rw [if_neg h2]; exact splitGo_ne_nil rest false (c :: acc)
    | false =>
      simp only [splitGo]
      by_cases h2 : c = ','
      · rw [if_pos h2]; simp
      · rw [if_neg h2]; exact splitGo_ne_nil rest false (c :: acc)

theorem resplit_isEmpty_false (s : String) : (resplit s).isEmpty = false := by
  unfold resplit
  cases h : splitGo false [] s.data with
  | nil => exact absurd h (splitGo_ne_nil s.data false [])
  | cons x xs => simp [h]

/-- C10: splitting any keywords text on commas yields at least one
fragment, so the skip guard for an empty split is unreachable, and an
abstract whose keywords text is empty still contributes exactly one
keyword whose text is the empty string. -/
theorem keywords_empty_text_single_empty_keyword :
    (∀ s : String, (resplit s).isEmpty = false) ∧
    loadKeywords "cze" [⟨"abstract", [""], []⟩] = Except.ok [("cze", "")] :=
  ⟨resplit_isEmpty_false, rfl⟩

/-- C8 counterexample: when the additional-content element has a title
child before the first abstract, the first abstract encountered has a
previous sibling, so its keywords get the inverse language, not the
article's own language. -/
theorem keywords_first_abstract_inverse_language :
    loadKeywords "cze" [⟨"title", [], []⟩, ⟨"abstract", ["a"], []⟩] =
      Except.ok [("eng", "a")] ∧ ("eng" : String) ≠ "cze" :=
  ⟨rfl, by decide⟩

theorem loadKeywordsGo_tail_eng (lang : String)
    (hl : lang = "cze" ∨ lang = "slo") :
    ∀ (children : List AcElem) (i : Nat) (l : List (String × String)),
      1 ≤ i → loadKeywordsGo lang i children = Except.ok l →
      ∀ x ∈ l, x.1 = "eng"
  | [], i, l => by
    intro hi h x hx
    cases h
    simp at hx
  | ⟨tag, kwTexts, ps⟩ :: rest, i, l => by
    intro hi h x hx
    have hinv : invert_language lang = Except.ok "eng" := by
      rcases hl with h2 | h2 <;> subst h2 <;> rfl
    simp only [loadKeywordsGo] at h
    by_cases htag : tag = "abstract"
    · rw [if_pos htag] at h
      cases kwTexts with
      | nil =>
        simp only [keywordAbstractStep] at h
        exact loadKeywordsGo_tail_eng lang hl rest (i + 1) l
          (by omega) h x hx
      | cons kw kws =>
        cases kws with
        | cons _ _ => simp only [keywordAbstractStep] at h; cases h
        | nil =>
          simp only [keywordAbstractStep] at h
          by_cases hemp : (resplit kw).isEmpty = true
          · rw [if_pos hemp] at h
            exact loadKeywordsGo_tail_eng lang hl rest (i + 1) l
              (by omega) h x hx
          · rw [if_neg hemp] at h
            rw [if_neg (by omega : ¬ i = 0)] at h
            rw [hinv] at h
            cases hr : loadKeywordsGo lang (i + 1) rest with
            | error e => rw [hr] at h; cases h
            | ok rest2 =>
              rw [hr] at h
              cases h
              rcases List.mem_append.mp hx with hx2 | hx2
              · obtain ⟨t, _, ht⟩ := List.mem_map.mp hx2
                rw [← ht]
              · exact loadKeywordsGo_tail_eng lang hl rest (i + 1) rest2
                  (by omega) hr x hx2
    · rw [if_neg htag] at h
      exact loadKeywordsGo_tail_eng lang hl rest (i + 1) l (by omega) h x hx

/-- C8 amended: keywords from an abstract with no preceding sibling in
the additional-content element get the article's own language, while
keywords from any abstract at a later child position — even the first
abstract encountered — get the inverse language. -/
theorem keywords_language_by_sibling_position :
    (∀ (lang : String), lang = "cze" ∨ lang = "slo" →
      ∀ (children : List AcElem) (i : Nat) (l : List (String × String)),
        1 ≤ i → loadKeywordsGo lang i children = Except.ok l →
        ∀ x ∈ l, x.1 = "eng") ∧
    (∀ (lang : String), lang = "cze" ∨ lang = "slo" →
      ∀ (kw : String) (ps : List String) (rest : List AcElem)
        (l : List (String × String)),
        loadKeywordsGo lang 0 (⟨"abstract", [kw], ps⟩ :: rest) = Except.ok l →
        l.take (resplit kw).length = (resplit kw).map (fun t => (lang, t))) := by
  constructor
  · exact fun lang hl => loadKeywordsGo_tail_eng lang hl
  · intro lang hl kw ps rest l h
    simp only [loadKeywordsGo, if_true] at h
    simp only [keywordAbstractStep] at h
    rw [if_neg (by rw [resplit_isEmpty_false]; simp)] at h
    simp only [if_true] at h
    cases hr : loadKeywordsGo lang (0 + 1) rest with
    | error e => rw [hr] at h; cases h
    | ok rest2 =>
      rw [hr] at h
      cases h
      rw [show (resplit kw).length =
        ((resplit kw).map (fun t => (lang, t))).length from
          (List.length_map _ _).symm]
      exact List.take_left _ _

/-- Witness for C8 amended: a later-positioned abstract's keywords get
eng, and a first-child abstract's keywords get the article's own
language cze. -/
theorem keywords_language_by_sibling_position_witness :
    (∀ x ∈ ([("eng", "x")] : List (String × String)), x.1 = "eng") ∧
    ([("cze", "a")] : List (String × String)).take (resplit "a").length =
      (resplit "a").map (fun t => (("cze" : String), t)) :=
  ⟨keywords_language_by_sibling_position.1 "cze" (Or.inl rfl)
      [⟨"abstract", ["x"], []⟩] 1 [("eng", "x")] (by decide) rfl,
    keywords_language_by_sibling_position.2 "cze" (Or.inl rfl) "a" [] []
      [("cze", "a")] rfl⟩

theorem addSet_nodup (s : List (String × String)) (x : String × String)
    (h : s.Nodup) : (addSet s x).Nodup := by
  unfold addSet
  by_cases hx : x ∈ s
  · rw [if_pos hx]; exact h
  · rw [if_neg hx]
    rw [List.nodup_append]
    exact ⟨h, List.nodup_singleton x,
      fun a ha hb => hx ((List.mem_singleton.mp hb) ▸ ha)⟩

theorem sortPairs_props (s : List (String × String)) (h : s.Nodup) :
    (List.insertionSort pairLe s).Nodup ∧
    (List.insertionSort pairLe s).Pairwise pairLe :=
  ⟨(List.perm_insertionSort pairLe s).nodup_iff.mpr h,
    List.sorted_insertionSort pairLe s⟩

theorem titleSet_nodup (selfLang : String) (titlesChildren : List TElem)
    (acTitles : List String) (s : List (String × String))
    (h : titleSet selfLang titlesChildren acTitles = Except.ok s) : s.Nodup := by
  unfold titleSet at h
  cases hm : mainTitleText titlesChildren with
  | error e => rw [hm] at h; cases h
  | ok mainText =>
    rw [hm] at h
    cases ho : origTitleEntry titlesChildren with
    | error e => rw [ho] at h; cases h
    | ok oEntry =>
      rw [ho] at h
      cases ha : acTitleEntry selfLang acTitles with
      | error e => rw [ha] at h; cases h
      | ok aEntry =>
        rw [ha] at h
        cases aEntry <;> cases oEntry <;> cases h <;>
          repeat' apply addSet_nodup
        all_goals exact List.nodup_nil

theorem loadSummGo_nodup (lang : String) :
    ∀ (children : List AcElem) (i : Nat) (acc : List (String × String))
      (m : Option String) (res : List (String × String) × Option String),
      acc.Nodup → loadSummGo lang i children acc m = Except.ok res →
      res.1.Nodup
  | [], i, acc, m, res => by
    intro hacc h
    cases h
    exact hacc
  | ⟨tag, kws, ps⟩ :: rest, i, acc, m, res => by
    intro hacc h
    simp only [loadSummGo] at h
    by_cases htag : tag = "abstract"
    · rw [if_pos htag] at h
      cases ps with
      | nil =>
        exact loadSummGo_nodup lang rest (i + 1) acc m res hacc h
      | cons p ps2 =>
        by_cases hi : i = 0
        · rw [if_pos hi] at h
          exact loadSummGo_nodup lang rest (i + 1) _ _ res
            (addSet_nodup acc _ hacc) h
        · rw [if_neg hi] at h
          cases hv : invert_language lang with
          | error e => rw [hv] at h; cases h
          | ok il =>
            rw [hv] at h
            exact loadSummGo_nodup lang rest (i + 1) _ _ res
              (addSet_nodup acc _ hacc) h
    · rw [if_neg htag] at h
      exact loadSummGo_nodup lang rest (i + 1) acc m res hacc h

/-- C9: the sorted title list and the sorted summary list are free of
duplicate (language, text) pairs and are sorted lexicographically by
language then text. -/
theorem titles_summaries_dedup_sorted :
    (∀ (selfLang : String) (titlesChildren : List TElem)
        (acTitles : List String) (l : List (String × String)),
      loadTitles selfLang titlesChildren acTitles = Except.ok l →
      l.Nodup ∧ l.Pairwise pairLe) ∧
    (∀ (lang : String) (children : List AcElem)
        (res : List (String × String) × Option String),
      loadSummaries lang children = Except.ok res →
      res.1.Nodup ∧ res.1.Pairwise pairLe) := by
  constructor
  · intro selfLang titlesChildren acTitles l h
    unfold loadTitles at h
    cases hts : titleSet selfLang titlesChildren acTitles with
    | error e => rw [hts] at h; cases h
    | ok s =>
      rw [hts] at h
      cases h
      exact sortPairs_props s
        (titleSet_nodup selfLang titlesChildren acTitles s hts)
  · intro lang children res h
    unfold loadSummaries at h
    cases hgo : loadSummGo lang 0 children [] none with
    | error e => rw [hgo] at h; cases h
    | ok pr =>
      obtain ⟨acc, m⟩ := pr
      rw [hgo] at h
      cases h
      exact sortPairs_props acc
        (loadSummGo_nodup lang children 0 [] none (acc, m) List.nodup_nil hgo)

/-- Witness for C9 at a concrete single-title article element. -/
theorem titles_summaries_dedup_sorted_witness :
    ([("cze", "T")] : List (String × String)).Nodup ∧
    ([("cze", "T")] : List (String × String)).Pairwise pairLe :=
  titles_summaries_dedup_sorted.1 "cze" [⟨"title", "T", none⟩] []
    [("cze", "T")] rfl
